import Mathlib

/-!
Verification of the positional navigation list (`NeighborList`) from
`qutebrowser/utils/usertypes.py`, shallowly embedded: the Python object is a
record, each mutating method becomes a function returning the result together
with the post state (Python exceptions propagate after mutations have already
happened, so even failing calls return a possibly changed state).
The item type is instantiated at `Int`, matching the integer lists used by the
specification scenarios.
-/

/-- The three boundary modes of `NeighborList.Modes = enum(block, wrap, exception)`. -/
inductive Mode where
  | block
  | wrap
  | exception
deriving DecidableEq, Repr

/-- Error kinds surfaced by the Python code: each constructor corresponds to one
`raise` site (or a Python builtin failure reachable from the methods). -/
inductive Err where
  /-- `IndexError("No items found!")` from `getitem` / `firstitem` / `lastitem`. -/
  | emptyList
  /-- `IndexError("No current item!")` from `curitem` when `idx is None`. -/
  | noCurrentItem
  /-- `ValueError("No default set!")` from `reset`. -/
  | noDefaultConfigured
  /-- `IndexError` from list indexing or the explicit `raise IndexError` in `_get_new_item`. -/
  | indexOutOfRange
  /-- `ValueError` from `min()` applied to an empty sequence in `_snap_in`. -/
  | valueErrorMinEmpty
  /-- `ValueError` from `list.index` when the element is not found. -/
  | valueErrorNotInList
  /-- Python `TypeError` from arithmetic or comparison against `None`. -/
  | typeError
  /-- Python `ZeroDivisionError` from `% 0`. -/
  | zeroDivision
deriving DecidableEq, Repr

deriving instance DecidableEq for Except

/-- The state of a `NeighborList`: `items` is `_items`, `idx` the current
position (`None` as `none`), `default` models the `_UNSET` sentinel as an
option, `mode` is `_mode` and `fuzzyval` the pending fuzzy value. -/
structure NeighborList where
  items : List Int
  idx : Option Int
  default : Option Int
  mode : Mode
  fuzzyval : Option Int
deriving DecidableEq, Repr

/-- Python list indexing `l[k]`: non-negative indices must be `< len`,
negative indices count from the end, anything else is an `IndexError`. -/
def pyGet (l : List Int) (k : Int) : Except Err Int :=
  if h : 0 ≤ k ∧ k < (l.length : Int) then
    .ok (l.get ⟨k.toNat, by omega⟩)
  else if h2 : -(l.length : Int) ≤ k ∧ k < 0 then
    .ok (l.get ⟨(k + l.length).toNat, by omega⟩)
  else
    .error .indexOutOfRange

/-- Python `list.index(v)`: index of the first occurrence, `none` when absent
(where Python raises `ValueError`). -/
def pyListIndex (l : List Int) (v : Int) : Option Nat :=
  match l with
  | [] => none
  | x :: xs => if x = v then some 0 else (pyListIndex xs v).map (· + 1)

/-- Python `min(l, key)`: the first element whose key attains the minimum;
`none` models the `ValueError` on an empty sequence. -/
def minByKey {α : Type} (key : α → Int) : List α → Option α
  | [] => none
  | x :: xs => some (xs.foldl (fun best y => if key y < key best then y else best) x)

namespace NeighborList

/-- `NeighborList.__init__`: copies the items; if a default is given the
cursor is set to its first index (`ValueError` when absent), otherwise the
cursor is `None`; `fuzzyval` starts as `None`. -/
def construct (items : List Int) (dft : Option Int) (mode : Mode) :
    Except Err NeighborList :=
  match dft with
  | none => .ok ⟨items, none, none, mode, none⟩
  | some d =>
    match pyListIndex items d with
    | none => .error .valueErrorNotInList
    | some i => .ok ⟨items, some (i : Int), some d, mode, none⟩

/-- `NeighborList.curitem`: the item at `idx`, `IndexError` when `idx is None`.
Does not mutate the state. -/
def curitem (s : NeighborList) : Except Err Int :=
  match s.idx with
  | none => .error .noCurrentItem
  | some i => pyGet s.items i

/-- `NeighborList._snap_in(offset)`: among the enumerated items satisfying
`e <= fuzzyval` (negative offset) or `e >= fuzzyval` (otherwise), pick the one
closest to `fuzzyval` (Python `min` keeps the first minimum), set `idx` to its
index and report whether `fuzzyval` was absent from the list. `min` of an
empty candidate list is a `ValueError` that leaves the state unchanged.
The method is only called with `fuzzyval` set; comparison against `None`
would be a `TypeError` in Python. -/
def snap_in (s : NeighborList) (offset : Int) : Except Err Bool × NeighborList :=
  match s.fuzzyval with
  | none => (.error .typeError, s)
  | some v =>
    let op : Int → Int → Bool := if offset < 0 then (fun e w => e ≤ w) else (fun e w => e ≥ w)
    let cands := s.items.enum.filter (fun p => op p.2 v)
    match minByKey (fun p => |v - p.2|) cands with
    | none => (.error .valueErrorMinEmpty, s)
    | some c => (.ok (! s.items.contains v), { s with idx := some (c.1 : Int) })

/-- `NeighborList._get_new_item(offset)`: try `items[idx + offset]` with the
explicit `raise IndexError` for a negative position; on `IndexError` the mode
decides: `block` returns the current item unchanged, `wrap` reduces the moved
cursor modulo the length (Python `% 0` is a `ZeroDivisionError`), `exception`
re-raises. `idx + offset` with `idx = None` is a Python `TypeError`. -/
def get_new_item (s : NeighborList) (offset : Int) : Except Err Int × NeighborList :=
  match s.idx with
  | none => (.error .typeError, s)
  | some i =>
    let attempt : Except Err Int :=
      if 0 ≤ i + offset then pyGet s.items (i + offset) else .error .indexOutOfRange
    match attempt with
    | .ok new => (.ok new, { s with idx := some (i + offset) })
    | .error e =>
      match s.mode with
      | .block => (curitem s, s)
      | .wrap =>
        if s.items.length = 0 then (.error .zeroDivision, s)
        else
          let s2 := { s with idx := some ((i + offset) % (s.items.length : Int)) }
          (curitem s2, s2)
      | .exception => (.error e, s)

/-- `NeighborList.getitem(offset)`: fails on an empty list; a pending
`fuzzyval` first snaps in, a snap that actually moved consumes one unit of the
offset toward zero, `fuzzyval` is cleared, and the remaining offset is applied
by `get_new_item`. -/
def getitem (s : NeighborList) (offset : Int) : Except Err Int × NeighborList :=
  if s.items.isEmpty then (.error .emptyList, s)
  else
    match s.fuzzyval with
    | none => get_new_item s offset
    | some _ =>
      match snap_in s offset with
      | (.error e, s1) => (.error e, s1)
      | (.ok snapped, s1) =>
        let offset2 : Int :=
          if snapped ∧ offset > 0 then offset - 1
          else if snapped then offset + 1
          else offset
        get_new_item { s1 with fuzzyval := none } offset2

/-- `NeighborList.nextitem`: `getitem(1)`. -/
def nextitem (s : NeighborList) : Except Err Int × NeighborList :=
  getitem s 1

/-- `NeighborList.previtem`: `getitem(-1)`. -/
def previtem (s : NeighborList) : Except Err Int × NeighborList :=
  getitem s (-1)

/-- `NeighborList.firstitem`: fails on an empty list, otherwise sets `idx := 0`
and returns the current item. -/
def firstitem (s : NeighborList) : Except Err Int × NeighborList :=
  if s.items.isEmpty then (.error .emptyList, s)
  else
    let s2 := { s with idx := some 0 }
    (curitem s2, s2)

/-- `NeighborList.lastitem`: fails on an empty list, otherwise sets
`idx := len - 1` and returns the current item. -/
def lastitem (s : NeighborList) : Except Err Int × NeighborList :=
  if s.items.isEmpty then (.error .emptyList, s)
  else
    let s2 := { s with idx := some ((s.items.length : Int) - 1) }
    (curitem s2, s2)

/-- `NeighborList.reset`: `ValueError("No default set!")` without a default,
otherwise `idx := items.index(default)` and return the current item. -/
def reset (s : NeighborList) : Except Err Int × NeighborList :=
  match s.default with
  | none => (.error .noDefaultConfigured, s)
  | some d =>
    match pyListIndex s.items d with
    | none => (.error .valueErrorNotInList, s)
    | some i =>
      let s2 := { s with idx := some (i : Int) }
      (curitem s2, s2)

/-- The attribute assignment `nl.fuzzyval = v` used by callers (the
`set_fuzzy` operation of the specification): sets only `fuzzyval`. -/
def set_fuzzy (s : NeighborList) (v : Int) : NeighborList :=
  { s with fuzzyval := some v }

/-- Applying a sequence of `getitem` calls, keeping only the state (results,
including failures, are discarded, as mutations survive a Python exception). -/
def apply_steps (s : NeighborList) (offs : List Int) : NeighborList :=
  offs.foldl (fun st o => (getitem st o).2) s

/-- Iterating `nextitem` a number of times, keeping only the state. -/
def iterate_next (s : NeighborList) : Nat → NeighborList
  | 0 => s
  | n + 1 => iterate_next (nextitem s).2 n

/-- The cursor invariant: `idx`, when present, is a valid index. -/
def Inv (s : NeighborList) : Prop :=
  ∀ i : Int, s.idx = some i → 0 ≤ i ∧ i < (s.items.length : Int)

end NeighborList

open NeighborList

/-! ## Helper lemmas -/

lemma foldl_min_mem {α : Type} (key : α → Int) :
    ∀ (xs : List α) (a : α),
      xs.foldl (fun best y => if key y < key best then y else best) a ∈ a :: xs := by
  intro xs
  induction xs with
  | nil => intro a; simp
  | cons y ys ih =>
    intro a
    simp only [List.foldl_cons]
    have h2 := ih (if key y < key a then y else a)
    rcases List.mem_cons.mp h2 with h3 | h3
    · rw [h3]; split <;> simp
    · exact List.mem_cons_of_mem _ (List.mem_cons_of_mem _ h3)

lemma minByKey_mem {α : Type} (key : α → Int) {l : List α} {x : α}
    (h : minByKey key l = some x) : x ∈ l := by
  cases l with
  | nil => simp [minByKey] at h
  | cons a as =>
    simp only [minByKey, Option.some.injEq] at h
    rw [← h]
    exact foldl_min_mem key as a

lemma mem_enum_bounds {l : List Int} {p : Nat × Int} (h : p ∈ l.enum) :
    p.1 < l.length ∧ p.2 ∈ l := by
  rw [List.enum_eq_zip_range] at h
  have h2 := List.of_mem_zip h
  exact ⟨List.mem_range.mp h2.1, h2.2⟩

lemma pyGet_eq_ok {l : List Int} {k : Int} (h0 : 0 ≤ k) (hlt : k < (l.length : Int)) :
    pyGet l k = .ok (l.get ⟨k.toNat, by omega⟩) := by
  unfold pyGet
  rw [dif_pos ⟨h0, hlt⟩]

lemma pyGet_err {l : List Int} {k : Int} (h : (l.length : Int) ≤ k) :
    pyGet l k = .error .indexOutOfRange := by
  unfold pyGet
  rw [dif_neg (by omega), dif_neg (by omega)]

lemma pyGet_ok_lt {l : List Int} {k : Int} {x : Int} (h0 : 0 ≤ k)
    (h : pyGet l k = .ok x) : k < (l.length : Int) := by
  unfold pyGet at h
  split at h
  · omega
  · split at h
    · omega
    · cases h

lemma pyListIndex_spec {v : Int} : ∀ {l : List Int} {i : Nat},
    pyListIndex l v = some i → ∃ h : i < l.length, l.get ⟨i, h⟩ = v := by
  intro l
  induction l with
  | nil => intro i h; simp [pyListIndex] at h
  | cons x xs ih =>
    intro i h
    by_cases hx : x = v
    · simp only [pyListIndex, if_pos hx, Option.some.injEq] at h
      subst h
      exact ⟨by simp, hx⟩
    · simp only [pyListIndex, if_neg hx] at h
      rcases Option.map_eq_some'.mp h with ⟨j, hj, hij⟩
      rcases ih hj with ⟨hb, hg⟩
      subst hij
      exact ⟨by simpa using hb, hg⟩

lemma iterate_next_fixed {s : NeighborList} (h : (nextitem s).2 = s) :
    ∀ n, iterate_next s n = s := by
  intro n
  induction n with
  | zero => rfl
  | succ m ih => rw [iterate_next, h]; exact ih

lemma nextitem_wrap_step (items : List Int) (d : Option Int) (i : Int)
    (hne : items ≠ []) (h0 : 0 ≤ i) (hlt : i < (items.length : Int)) :
    nextitem ⟨items, some i, d, Mode.wrap, none⟩ =
      (pyGet items ((i + 1) % (items.length : Int)),
       ⟨items, some ((i + 1) % (items.length : Int)), d, Mode.wrap, none⟩) := by
  have hlen0 : items.length ≠ 0 := fun h => hne (List.length_eq_zero.mp h)
  unfold nextitem getitem get_new_item
  rw [if_neg (by simp [List.isEmpty_iff, hne])]
  dsimp only
  rw [if_pos (by omega : (0:Int) ≤ i + 1)]
  by_cases hc : i + 1 < (items.length : Int)
  · rw [pyGet_eq_ok (by omega) hc]
    dsimp only
    rw [Int.emod_eq_of_lt (by omega) hc]
    rw [pyGet_eq_ok (by omega) hc]
  · rw [pyGet_err (by omega)]
    dsimp only
    rw [if_neg hlen0]
    rfl

lemma iterate_next_wrap (items : List Int) (d : Option Int) (hne : items ≠ []) :
    ∀ (k : Nat) (i : Int), 0 ≤ i → i < (items.length : Int) →
      iterate_next ⟨items, some i, d, Mode.wrap, none⟩ k =
        ⟨items, some ((i + (k : Int)) % (items.length : Int)), d, Mode.wrap, none⟩ := by
  have hlen0 : items.length ≠ 0 := fun h => hne (List.length_eq_zero.mp h)
  have hlz : ((items.length : Int)) ≠ 0 := by exact_mod_cast hlen0
  have hlp : (0 : Int) < (items.length : Int) := by omega
  intro k
  induction k with
  | zero =>
    intro i h0 hlt
    simp only [iterate_next, Nat.cast_zero, add_zero, Int.emod_eq_of_lt h0 hlt]
  | succ n ih =>
    intro i h0 hlt
    rw [iterate_next, nextitem_wrap_step items d i hne h0 hlt]
    dsimp only
    rw [ih ((i + 1) % (items.length : Int)) (Int.emod_nonneg _ hlz)
      (Int.emod_lt_of_pos _ hlp)]
    have harith : ((i + 1) % (items.length : Int) + (n : Int)) % (items.length : Int) =
        (i + ((n + 1 : Nat) : Int)) % (items.length : Int) := by
      rw [Int.emod_add_emod]
      congr 1
      push_cast
      ring
    rw [harith]

lemma get_int_pred_eq_getLast (items : List Int) (hne : items ≠ [])
    (h : ((items.length : Int) - 1).toNat < items.length) :
    items.get ⟨((items.length : Int) - 1).toNat, h⟩ = items.getLast hne := by
  have hlp : 0 < items.length := List.length_pos.mpr hne
  have hn : ((items.length : Int) - 1).toNat = items.length - 1 := by omega
  rw [List.getLast_eq_getElem]
  simp only [List.get_eq_getElem]
  congr 1

lemma nextitem_block_last (items : List Int) (d : Option Int) (hne : items ≠ []) :
    nextitem ⟨items, some ((items.length : Int) - 1), d, Mode.block, none⟩ =
      (.ok (items.getLast hne),
       ⟨items, some ((items.length : Int) - 1), d, Mode.block, none⟩) := by
  have hlp : 0 < items.length := List.length_pos.mpr hne
  unfold nextitem getitem get_new_item
  rw [if_neg (by simp [List.isEmpty_iff, hne])]
  dsimp only
  rw [if_pos (by omega : (0:Int) ≤ (items.length : Int) - 1 + 1)]
  rw [show (items.length : Int) - 1 + 1 = (items.length : Int) from by ring]
  rw [pyGet_err (le_refl _)]
  dsimp only
  rw [show curitem ⟨items, some ((items.length : Int) - 1), d, Mode.block, none⟩ =
    pyGet items ((items.length : Int) - 1) from rfl]
  rw [pyGet_eq_ok (by omega) (by omega)]
  rw [get_int_pred_eq_getLast items hne]

lemma snap_in_fields (s : NeighborList) (off : Int) :
    (snap_in s off).2.items = s.items ∧ (snap_in s off).2.default = s.default := by
  obtain ⟨its, ix, df, md, fz⟩ := s
  unfold snap_in
  dsimp only
  cases fz with
  | none => exact ⟨rfl, rfl⟩
  | some v =>
    dsimp only
    split
    · exact ⟨rfl, rfl⟩
    · exact ⟨rfl, rfl⟩

lemma get_new_item_fields (s : NeighborList) (off : Int) :
    (get_new_item s off).2.items = s.items ∧ (get_new_item s off).2.default = s.default := by
  obtain ⟨its, ix, df, md, fz⟩ := s
  unfold get_new_item
  dsimp only
  cases ix with
  | none => exact ⟨rfl, rfl⟩
  | some i =>
    dsimp only
    split
    · exact ⟨rfl, rfl⟩
    · split
      · exact ⟨rfl, rfl⟩
      · split
        · exact ⟨rfl, rfl⟩
        · exact ⟨rfl, rfl⟩
      · exact ⟨rfl, rfl⟩

lemma getitem_fields (s : NeighborList) (off : Int) :
    (getitem s off).2.items = s.items ∧ (getitem s off).2.default = s.default := by
  unfold getitem
  split
  · exact ⟨rfl, rfl⟩
  · split
    · exact get_new_item_fields s off
    · split
      next e s1 heq =>
        have h1 := snap_in_fields s off
        rw [heq] at h1
        exact h1
      next snapped s1 heq =>
        have h1 := snap_in_fields s off
        rw [heq] at h1
        exact ⟨(get_new_item_fields _ _).1.trans h1.1, (get_new_item_fields _ _).2.trans h1.2⟩

lemma apply_steps_fields : ∀ (offs : List Int) (s : NeighborList),
    (apply_steps s offs).items = s.items ∧ (apply_steps s offs).default = s.default := by
  intro offs
  induction offs with
  | nil => intro s; exact ⟨rfl, rfl⟩
  | cons o os ih =>
    intro s
    have h1 := getitem_fields s o
    have h2 := ih (getitem s o).2
    have hstep : apply_steps s (o :: os) = apply_steps (getitem s o).2 os := rfl
    rw [hstep]
    exact ⟨h2.1.trans h1.1, h2.2.trans h1.2⟩

lemma Inv_construct {items : List Int} {dft : Option Int} {m : Mode} {s : NeighborList}
    (h : construct items dft m = .ok s) : Inv s := by
  cases dft with
  | none =>
    simp only [construct] at h
    injection h with h2
    subst h2
    intro j hj
    simp at hj
  | some d =>
    simp only [construct] at h
    cases hI : pyListIndex items d with
    | none => rw [hI] at h; cases h
    | some i =>
      rw [hI] at h
      injection h with h2
      subst h2
      intro j hj
      dsimp only at hj ⊢
      injection hj with hj2
      subst hj2
      obtain ⟨hb, _⟩ := pyListIndex_spec hI
      exact ⟨by positivity, by exact_mod_cast hb⟩

lemma Inv_snap_in {s : NeighborList} (hs : Inv s) (off : Int) : Inv (snap_in s off).2 := by
  obtain ⟨its, ix, df, md, fz⟩ := s
  unfold snap_in
  dsimp only
  cases fz with
  | none => exact hs
  | some v =>
    dsimp only
    split
    · exact hs
    next c hmin =>
      have hc := minByKey_mem _ hmin
      have hc2 := List.mem_filter.mp hc
      have hb := (mem_enum_bounds hc2.1).1
      intro j hj
      dsimp only at hj ⊢
      injection hj with hj2
      subst hj2
      exact ⟨by positivity, by exact_mod_cast hb⟩

lemma Inv_get_new_item {s : NeighborList} (hs : Inv s) (off : Int) :
    Inv (get_new_item s off).2 := by
  obtain ⟨its, ix, df, md, fz⟩ := s
  unfold get_new_item
  dsimp only
  cases ix with
  | none => exact hs
  | some i =>
    dsimp only
    split
    next new hattempt =>
      by_cases h1 : (0:Int) ≤ i + off
      · rw [if_pos h1] at hattempt
        have h2 := pyGet_ok_lt h1 hattempt
        intro j hj
        dsimp only at hj ⊢
        injection hj with hj2
        subst hj2
        exact ⟨h1, h2⟩
      · rw [if_neg h1] at hattempt
        cases hattempt
    next e hattempt =>
      split
      · exact hs
      · split
        · exact hs
        next hlen =>
          intro j hj
          dsimp only at hj ⊢
          injection hj with hj2
          subst hj2
          have hlz : ((its.length : Int)) ≠ 0 := by exact_mod_cast hlen
          have hlp : (0:Int) < (its.length : Int) := by omega
          exact ⟨Int.emod_nonneg _ hlz, Int.emod_lt_of_pos _ hlp⟩
      · exact hs

lemma Inv_getitem {s : NeighborList} (hs : Inv s) (off : Int) : Inv (getitem s off).2 := by
  unfold getitem
  split
  · exact hs
  · split
    · exact Inv_get_new_item hs off
    · split
      next e s1 heq =>
        have h2 := Inv_snap_in hs off
        rw [heq] at h2
        exact h2
      next snapped s1 heq =>
        have h2 := Inv_snap_in hs off
        rw [heq] at h2
        have h3 : Inv { s1 with fuzzyval := none } := fun j hj => h2 j hj
        exact Inv_get_new_item h3 _

lemma Inv_firstitem {s : NeighborList} (hs : Inv s) : Inv (firstitem s).2 := by
  unfold firstitem
  split
  · exact hs
  next hne =>
    have hne2 : s.items ≠ [] := fun h => hne (by simp [h])
    have hlp : 0 < s.items.length := List.length_pos.mpr hne2
    intro j hj
    dsimp only at hj ⊢
    injection hj with hj2
    subst hj2
    exact ⟨le_refl 0, by exact_mod_cast hlp⟩

lemma Inv_lastitem {s : NeighborList} (hs : Inv s) : Inv (lastitem s).2 := by
  unfold lastitem
  split
  · exact hs
  next hne =>
    have hne2 : s.items ≠ [] := fun h => hne (by simp [h])
    have hlp : 0 < s.items.length := List.length_pos.mpr hne2
    intro j hj
    dsimp only at hj ⊢
    injection hj with hj2
    subst hj2
    constructor <;> omega

lemma Inv_reset {s : NeighborList} (hs : Inv s) : Inv (reset s).2 := by
  unfold reset
  split
  · exact hs
  next d hdef =>
    split
    · exact hs
    next i hI =>
      intro j hj
      dsimp only at hj ⊢
      injection hj with hj2
      subst hj2
      obtain ⟨hb, _⟩ := pyListIndex_spec hI
      exact ⟨by positivity, by exact_mod_cast hb⟩

/-! ## Claim theorems -/

/-- Claim C1, counterexample: on `[1,3,5,7]` with a pending fuzzy value `3`,
`nextitem` does not return `3`. -/
theorem C1_counterexample :
    (nextitem (set_fuzzy ⟨[1, 3, 5, 7], none, none, .exception, none⟩ 3)).1 ≠ .ok 3 := by
  decide

/-- Claim C1, amended: on `[1,3,5,7]` with pending fuzzy value `3` (an exact
member), `nextitem` snaps the cursor to the index of `3` but, because an exact
match means the snap did not change the conceptual position, the snap consumes
none of the offset; the full `+1` is then applied from index 1, so `nextitem`
returns `5` and leaves the cursor at index 2. -/
theorem C1_fuzzy_exact_member :
    nextitem (set_fuzzy ⟨[1, 3, 5, 7], none, none, .exception, none⟩ 3) =
      (.ok 5, ⟨[1, 3, 5, 7], some 2, none, .exception, none⟩) := by
  rfl

/-- Claim C2: on `[1,3,5,7]` with pending fuzzy value `4` (not a member),
`nextitem` snaps to the nearest item at least `4`, namely `5`, the snap
consumes the `+1` offset, and the result is `5` with the cursor on its index;
symmetrically `previtem` snaps to the nearest item at most `4`, namely `3`,
consumes the `-1` offset, and returns `3`. -/
theorem C2_fuzzy_non_member :
    nextitem (set_fuzzy ⟨[1, 3, 5, 7], none, none, .exception, none⟩ 4) =
      (.ok 5, ⟨[1, 3, 5, 7], some 2, none, .exception, none⟩) ∧
    previtem (set_fuzzy ⟨[1, 3, 5, 7], none, none, .exception, none⟩ 4) =
      (.ok 3, ⟨[1, 3, 5, 7], some 1, none, .exception, none⟩) := by
  exact ⟨rfl, rfl⟩

/-- Claim C3, counterexample: on a list constructed with zero items, `curitem`
fails with `noCurrentItem`, not with the `emptyList` kind. -/
theorem C3_counterexample :
    curitem ⟨[], none, none, .exception, none⟩ = .error .noCurrentItem ∧
      Err.noCurrentItem ≠ Err.emptyList := by
  exact ⟨rfl, by decide⟩

/-- Claim C3, amended: on a list constructed with zero items (so the cursor is
absent), `nextitem`, `previtem`, `firstitem` and `lastitem` fail with the
`emptyList` kind, while `curitem` fails with the `noCurrentItem` kind. -/
theorem C3_empty_list_errors (m : Mode) :
    construct [] none m = .ok ⟨[], none, none, m, none⟩ ∧
    (nextitem ⟨[], none, none, m, none⟩).1 = .error .emptyList ∧
    (previtem ⟨[], none, none, m, none⟩).1 = .error .emptyList ∧
    (firstitem ⟨[], none, none, m, none⟩).1 = .error .emptyList ∧
    (lastitem ⟨[], none, none, m, none⟩).1 = .error .emptyList ∧
    curitem ⟨[], none, none, m, none⟩ = .error .noCurrentItem := by
  exact ⟨rfl, rfl, rfl, rfl, rfl, rfl⟩

/-- Claim C4: for every non-empty list, every valid start cursor, wrap mode
and no pending fuzzy value, calling `nextitem` exactly `length` times returns
the cursor to its original index, and the final (`length`-th) call returns the
original item. -/
theorem C4_wrap_cycle (items : List Int) (d : Option Int) (i0 : Nat)
    (hne : items ≠ []) (hlt : i0 < items.length) :
    iterate_next ⟨items, some (i0 : Int), d, Mode.wrap, none⟩ items.length =
      ⟨items, some (i0 : Int), d, Mode.wrap, none⟩ ∧
    (nextitem (iterate_next ⟨items, some (i0 : Int), d, Mode.wrap, none⟩
        (items.length - 1))).1 = .ok (items.get ⟨i0, hlt⟩) := by
  have hlen0 : items.length ≠ 0 := fun h => hne (List.length_eq_zero.mp h)
  have hlz : ((items.length : Int)) ≠ 0 := by exact_mod_cast hlen0
  have hlp : (0 : Int) < (items.length : Int) := by omega
  have hi0 : (0 : Int) ≤ (i0 : Int) := by positivity
  have hilt : (i0 : Int) < (items.length : Int) := by exact_mod_cast hlt
  have hfull : ((i0 : Int) + (items.length : Int)) % (items.length : Int) = (i0 : Int) := by
    rw [show ((i0 : Int) + (items.length : Int)) % (items.length : Int) =
      (i0 : Int) % (items.length : Int) from by simp [Int.add_mul_emod_self_left]]
    exact Int.emod_eq_of_lt hi0 hilt
  constructor
  · rw [iterate_next_wrap items d hne items.length (i0 : Int) hi0 hilt]
    rw [hfull]
  · rw [iterate_next_wrap items d hne (items.length - 1) (i0 : Int) hi0 hilt]
    have h0' : 0 ≤ ((i0 : Int) + ((items.length - 1 : Nat) : Int)) % (items.length : Int) :=
      Int.emod_nonneg _ hlz
    have hlt' := Int.emod_lt_of_pos ((i0 : Int) + ((items.length - 1 : Nat) : Int)) hlp
    rw [nextitem_wrap_step items d _ hne h0' hlt']
    dsimp only
    have harith : (((i0 : Int) + ((items.length - 1 : Nat) : Int)) % (items.length : Int) + 1) %
        (items.length : Int) = (i0 : Int) := by
      rw [Int.emod_add_emod]
      rw [show (i0 : Int) + ((items.length - 1 : Nat) : Int) + 1 =
        (i0 : Int) + (items.length : Int) from by
          push_cast [Nat.cast_sub (Nat.one_le_iff_ne_zero.mpr hlen0)]
          ring]
      exact hfull
    rw [harith]
    rw [pyGet_eq_ok hi0 hilt]
    congr 1

/-- Witness for C4 on the list `[10, 20, 30]` starting at index 1. -/
theorem C4_wrap_cycle_witness :
    iterate_next ⟨[10, 20, 30], some 1, none, Mode.wrap, none⟩ 3 =
      ⟨[10, 20, 30], some 1, none, Mode.wrap, none⟩ ∧
    (nextitem (iterate_next ⟨[10, 20, 30], some 1, none, Mode.wrap, none⟩ 2)).1 = .ok 20 := by
  have h := C4_wrap_cycle [10, 20, 30] none 1 (by decide) (by decide)
  simpa using h

/-- Claim C5: in exception (raise-error) mode, on every non-empty list with
the cursor at index 0 and no pending fuzzy value, `previtem` fails with
`indexOutOfRange` and the whole state — in particular the cursor — is
unchanged by the failed call. -/
theorem C5_raise_prev_at_zero (items : List Int) (d : Option Int) (hne : items ≠ []) :
    previtem ⟨items, some 0, d, Mode.exception, none⟩ =
      (.error .indexOutOfRange, ⟨items, some 0, d, Mode.exception, none⟩) := by
  unfold previtem getitem get_new_item
  rw [if_neg (by simp [List.isEmpty_iff, hne])]
  dsimp only
  rw [if_neg (by omega : ¬ (0:Int) ≤ 0 + (-1))]

/-- Witness for C5 on the list `[1, 2]`. -/
theorem C5_raise_prev_at_zero_witness :
    previtem ⟨[1, 2], some 0, none, Mode.exception, none⟩ =
      (.error .indexOutOfRange, ⟨[1, 2], some 0, none, Mode.exception, none⟩) :=
  C5_raise_prev_at_zero [1, 2] none (by decide)

/-- Claim C6: in block mode, on every non-empty list with the cursor at the
last index and no pending fuzzy value, any number of repeated `nextitem` calls
leaves the state (hence the cursor) unchanged, and each call returns the last
item. -/
theorem C6_block_last (items : List Int) (d : Option Int) (hne : items ≠ []) (n : Nat) :
    iterate_next ⟨items, some ((items.length : Int) - 1), d, Mode.block, none⟩ n =
      ⟨items, some ((items.length : Int) - 1), d, Mode.block, none⟩ ∧
    (nextitem (iterate_next ⟨items, some ((items.length : Int) - 1), d,
        Mode.block, none⟩ n)).1 = .ok (items.getLast hne) := by
  have hstep := nextitem_block_last items d hne
  have hfix := iterate_next_fixed (by rw [hstep]) n
  refine ⟨hfix, ?_⟩
  rw [hfix, hstep]

/-- Witness for C6 on the list `[4, 5, 6]` with five repetitions. -/
theorem C6_block_last_witness :
    iterate_next ⟨[4, 5, 6], some 2, none, Mode.block, none⟩ 5 =
      ⟨[4, 5, 6], some 2, none, Mode.block, none⟩ ∧
    (nextitem (iterate_next ⟨[4, 5, 6], some 2, none, Mode.block, none⟩ 5)).1 = .ok 6 := by
  have h := C6_block_last [4, 5, 6] none (by decide) 5
  simpa using h

/-- Claim C7: with a default supplied at construction (and validated as a
member then), `reset` after any sequence of `getitem` step calls returns
exactly the configured default value and sets the cursor to its (first) index;
without a configured default, `reset` fails with `noDefaultConfigured`. -/
theorem C7_reset_default :
    (∀ (items : List Int) (d : Int) (m : Mode) (s0 : NeighborList) (offs : List Int),
        construct items (some d) m = .ok s0 →
        ∃ i : Nat, pyListIndex items d = some i ∧
          reset (apply_steps s0 offs) =
            (.ok d, { apply_steps s0 offs with idx := some (i : Int) })) ∧
    (∀ (items : List Int) (m : Mode) (s0 : NeighborList) (offs : List Int),
        construct items none m = .ok s0 →
        reset (apply_steps s0 offs) =
          (.error .noDefaultConfigured, apply_steps s0 offs)) := by
  constructor
  · intro items d m s0 offs hcons
    simp only [construct] at hcons
    cases hI : pyListIndex items d with
    | none => rw [hI] at hcons; cases hcons
    | some i =>
      rw [hI] at hcons
      injection hcons with h2
      subst h2
      refine ⟨i, rfl, ?_⟩
      obtain ⟨hlt2, hget⟩ := pyListIndex_spec hI
      have hf := apply_steps_fields offs ⟨items, some (i : Int), some d, m, none⟩
      unfold reset
      rw [hf.2]
      dsimp only
      rw [hf.1, hI]
      dsimp only
      congr 1
      · show pyGet items (i : Int) = .ok d
        rw [pyGet_eq_ok (by positivity) (by exact_mod_cast hlt2)]
        exact congrArg Except.ok hget
      · rw [hf.2]
  · intro items m s0 offs hcons
    simp only [construct] at hcons
    injection hcons with h2
    subst h2
    have hf := apply_steps_fields offs ⟨items, none, none, m, none⟩
    unfold reset
    rw [hf.2]

/-- Witness for C7: default `2` in `[1, 2, 3]` with two steps, and no default
with one step. -/
theorem C7_reset_default_witness :
    (∃ i : Nat, pyListIndex [1, 2, 3] 2 = some i ∧
        reset (apply_steps ⟨[1, 2, 3], some 1, some 2, Mode.exception, none⟩ [1, 1]) =
          (.ok 2, { apply_steps (⟨[1, 2, 3], some 1, some 2, Mode.exception, none⟩ :
              NeighborList) [1, 1] with idx := some (i : Int) })) ∧
    reset (apply_steps ⟨[1, 2, 3], none, none, Mode.exception, none⟩ [1]) =
      (.error .noDefaultConfigured,
       apply_steps ⟨[1, 2, 3], none, none, Mode.exception, none⟩ [1]) :=
  ⟨C7_reset_default.1 [1, 2, 3] 2 Mode.exception _ [1, 1] rfl,
   C7_reset_default.2 [1, 2, 3] Mode.exception _ [1] rfl⟩

/-- Claim C8: the invariant that the cursor, when present, is a valid index in
`[0, length)` holds for every constructed list and is preserved by every
operation: `getitem` with any offset in every mode (including fuzzy
snapping), `nextitem`, `previtem`, `firstitem`, `lastitem` and `reset`. -/
theorem C8_cursor_invariant :
    (∀ (items : List Int) (dft : Option Int) (m : Mode) (s : NeighborList),
        construct items dft m = .ok s → Inv s) ∧
    (∀ (s : NeighborList) (off : Int), Inv s → Inv (getitem s off).2) ∧
    (∀ s : NeighborList, Inv s → Inv (nextitem s).2) ∧
    (∀ s : NeighborList, Inv s → Inv (previtem s).2) ∧
    (∀ s : NeighborList, Inv s → Inv (firstitem s).2) ∧
    (∀ s : NeighborList, Inv s → Inv (lastitem s).2) ∧
    (∀ s : NeighborList, Inv s → Inv (reset s).2) :=
  ⟨fun _ _ _ _ h => Inv_construct h,
   fun _ off hs => Inv_getitem hs off,
   fun _ hs => Inv_getitem hs 1,
   fun _ hs => Inv_getitem hs (-1),
   fun _ hs => Inv_firstitem hs,
   fun _ hs => Inv_lastitem hs,
   fun _ hs => Inv_reset hs⟩

/-- Witness for C8: the invariant holds after constructing `[1, 2]` with
default `1` and is preserved by a `getitem` step with a fuzzy value set. -/
theorem C8_cursor_invariant_witness :
    Inv (⟨[1, 2], some 0, some 1, Mode.exception, none⟩ : NeighborList) ∧
    Inv (getitem ⟨[1, 2], some 0, some 1, Mode.exception, some 3⟩ 1).2 := by
  have h1 := C8_cursor_invariant.1 [1, 2] (some 1) Mode.exception
    ⟨[1, 2], some 0, some 1, Mode.exception, none⟩ rfl
  have h2 : Inv (⟨[1, 2], some 0, some 1, Mode.exception, some 3⟩ : NeighborList) := by
    intro j hj
    dsimp only at hj ⊢
    injection hj with hj2
    subst hj2
    constructor <;> norm_num
  exact ⟨h1, C8_cursor_invariant.2.1 _ 1 h2⟩

/-- Claim C9: when the pending fuzzy value is strictly greater than every item
and the offset is positive (or strictly smaller than every item and the offset
is negative), no item satisfies the direction predicate, the snap takes a
minimum over an empty collection, and `getitem` fails with the `min()` on an
empty sequence error — an error outside the specified taxonomy — leaving the
whole state (cursor and still-set fuzzy value) unchanged. -/
theorem C9_snap_min_empty :
    (∀ (s : NeighborList) (v off : Int), s.fuzzyval = some v →
        (∀ x ∈ s.items, x < v) → s.items ≠ [] → 0 < off →
        getitem s off = (.error .valueErrorMinEmpty, s)) ∧
    (∀ (s : NeighborList) (v off : Int), s.fuzzyval = some v →
        (∀ x ∈ s.items, v < x) → s.items ≠ [] → off < 0 →
        getitem s off = (.error .valueErrorMinEmpty, s)) := by
  constructor
  · intro s v off hfv hall hne hpos
    obtain ⟨its, ix, df, md, fz⟩ := s
    dsimp only at hfv hall hne
    subst hfv
    have hop : ¬ off < 0 := by omega
    have hfil : its.enum.filter (fun p => decide (p.2 ≥ v)) = [] := by
      refine List.filter_eq_nil_iff.mpr ?_
      intro p hp
      have h2 := (mem_enum_bounds hp).2
      have := hall p.2 h2
      simp
      omega
    have hsnap : snap_in ⟨its, ix, df, md, some v⟩ off =
        (.error .valueErrorMinEmpty, ⟨its, ix, df, md, some v⟩) := by
      unfold snap_in
      dsimp only
      rw [if_neg hop]
      rw [hfil]
      rfl
    unfold getitem
    rw [if_neg (by simp [List.isEmpty_iff, hne])]
    dsimp only
    rw [hsnap]
  · intro s v off hfv hall hne hneg
    obtain ⟨its, ix, df, md, fz⟩ := s
    dsimp only at hfv hall hne
    subst hfv
    have hfil : its.enum.filter (fun p => decide (p.2 ≤ v)) = [] := by
      refine List.filter_eq_nil_iff.mpr ?_
      intro p hp
      have h2 := (mem_enum_bounds hp).2
      have := hall p.2 h2
      simp
      omega
    have hsnap : snap_in ⟨its, ix, df, md, some v⟩ off =
        (.error .valueErrorMinEmpty, ⟨its, ix, df, md, some v⟩) := by
      unfold snap_in
      dsimp only
      rw [if_pos hneg]
      rw [hfil]
      rfl
    unfold getitem
    rw [if_neg (by simp [List.isEmpty_iff, hne])]
    dsimp only
    rw [hsnap]

/-- Witness for C9 at concrete inputs: fuzzy value `9` above every item of
`[1,3,5,7]` with offset `+1`, and fuzzy value `0` below every item with
offset `-1`. -/
theorem C9_snap_min_empty_witness :
    getitem ⟨[1, 3, 5, 7], some 0, none, .exception, some 9⟩ 1 =
      (.error .valueErrorMinEmpty, ⟨[1, 3, 5, 7], some 0, none, .exception, some 9⟩) ∧
    getitem ⟨[1, 3, 5, 7], some 0, none, .exception, some 0⟩ (-1) =
      (.error .valueErrorMinEmpty, ⟨[1, 3, 5, 7], some 0, none, .exception, some 0⟩) := by
  constructor
  · exact C9_snap_min_empty.1 ⟨[1, 3, 5, 7], some 0, none, .exception, some 9⟩ 9 1 rfl
      (by decide) (by decide) (by decide)
  · exact C9_snap_min_empty.2 ⟨[1, 3, 5, 7], some 0, none, .exception, some 0⟩ 0 (-1) rfl
      (by decide) (by decide) (by decide)

/-- Claim C10: a failing step is not atomic when a fuzzy value is pending.
With `[1,3,5,7]`, cursor at 0, fuzzy value `6` and offset `+2` in exception
mode, the snap succeeds (cursor moves to index 3, fuzzy value cleared and one
offset unit consumed), but applying the remaining `+1` crosses the upper
boundary, so the call fails with `indexOutOfRange` while the state keeps the
moved cursor and the cleared fuzzy value. -/
theorem C10_failing_step_not_atomic :
    getitem ⟨[1, 3, 5, 7], some 0, none, .exception, some 6⟩ 2 =
      (.error .indexOutOfRange, ⟨[1, 3, 5, 7], some 3, none, .exception, none⟩) ∧
    (some (3 : Int) ≠ some (0 : Int) ∧ (none : Option Int) ≠ some 6) := by
  exact ⟨rfl, by decide, by decide⟩
